import Mathlib

set_option maxHeartbeats 1000000

namespace PrdBdd

/-- A BDD scenario record produced upstream: a dictionary with optional
`given` / `when` / `then` string fields (any may be absent). -/
structure Feature where
  given : Option String
  when_ : Option String
  then_ : Option String
deriving DecidableEq, Inhabited

/-- Python `f.get('given', '')`. -/
def givenText (f : Feature) : String := f.given.getD ""

/-- Python `f.get('when', '')`. -/
def whenText (f : Feature) : String := f.when_.getD ""

/-- Python `f.get('then', '')`. -/
def thenText (f : Feature) : String := f.then_.getD ""

/-- The fixed contradictory keyword pairs of `remove_duplicates_cosine_90`. -/
def contrast_pairs : List (String × String) :=
  [("success", "error"), ("approve", "reject"),
   ("completed", "failed"), ("allow", "deny"),
   ("green", "red"), ("enabled", "disabled"),
   ("true", "false"), ("valid", "invalid"),
   ("accepted", "rejected"), ("active", "inactive"),
   ("pass", "fail"), ("positive", "negative"),
   ("granted", "denied"), ("authenticated", "unauthorized")]

/-- Character-list version of "pat starts the list hay". -/
def leadMatch : List Char → List Char → Bool
  | [], _ => true
  | _ :: _, [] => false
  | a :: as, b :: bs => a == b && leadMatch as bs

/-- Character-list version of "pat occurs somewhere in hay"
(Python's substring operator `in`). -/
def subMatch (pat : List Char) : List Char → Bool
  | [] => leadMatch pat []
  | b :: bs => leadMatch pat (b :: bs) || subMatch pat bs

/-- Python `pat in hay` on strings. -/
def strContains (hay pat : String) : Bool := subMatch pat.data hay.data

/-- Character-wise lowercasing (Python `str.lower()` on the texts at hand). -/
def lowerChars (s : String) : List Char := s.data.map Char.toLower

/-- `has_contrast` from `remove_duplicates_cosine_90`: both texts are
lowercased and each contrast pair is checked in both directions by a
substring test. -/
def has_contrast (text1 text2 : String) : Bool :=
  let t1 := lowerChars text1
  let t2 := lowerChars text2
  contrast_pairs.any fun p =>
    (subMatch p.1.data t1 && subMatch p.2.data t2) ||
    (subMatch p.2.data t1 && subMatch p.1.data t2)

/-- The `f"{whens[i]} {thens[i]}"` text the contrast veto is applied to. -/
def whenThen (features : List Feature) (i : Nat) : String :=
  whenText (features.getD i default) ++ " " ++ thenText (features.getD i default)

/-- The inner-loop guard of `remove_duplicates_cosine_90`:
`sim_matrix[i, j] > threshold and not has_contrast(...)`. -/
def dupCond (features : List Feature) (sim : Nat → Nat → ℚ) (threshold : ℚ)
    (i j : Nat) : Bool :=
  decide (threshold < sim i j) &&
    ! has_contrast (whenThen features i) (whenThen features j)

/-- The mutable loop state of `remove_duplicates_cosine_90`: `seen` (a set,
kept here as a duplicate-free list), `unique_indices`, and `duplicates`. -/
structure ReduceState where
  seen : List Nat
  unique_indices : List Nat
  duplicates : List (Nat × Nat × ℚ)
deriving DecidableEq

/-- Python `seen.add(j)` (sets ignore repeated insertion). -/
def seenInsert (j : Nat) (s : List Nat) : List Nat := if j ∈ s then s else s ++ [j]

/-- Python `range(a, b)`. -/
def rangeFrom (a b : Nat) : List Nat := (List.range (b - a)).map (a + ·)

/-- The inner `for j in range(i + 1, len(features))` loop of
`remove_duplicates_cosine_90`, run over the remaining values of `j`. -/
def innerLoop (features : List Feature) (sim : Nat → Nat → ℚ) (threshold : ℚ)
    (i : Nat) : List Nat → ReduceState → ReduceState
  | [], st => st
  | j :: js, st =>
      innerLoop features sim threshold i js
        (if dupCond features sim threshold i j then
          { st with seen := seenInsert j st.seen,
                    duplicates := st.duplicates ++ [(i, j, sim i j)] }
         else st)

/-- The outer `for i in range(len(features))` loop of
`remove_duplicates_cosine_90`: skip `i` if already seen, otherwise run the
inner loop and append `i` to `unique_indices`. -/
def outerLoop (features : List Feature) (sim : Nat → Nat → ℚ) (threshold : ℚ)
    (n : Nat) : List Nat → ReduceState → ReduceState
  | [], st => st
  | i :: pend, st =>
      if i ∈ st.seen then outerLoop features sim threshold n pend st
      else
        outerLoop features sim threshold n pend
          (let st2 := innerLoop features sim threshold i (rangeFrom (i + 1) n) st
           { st2 with unique_indices := st2.unique_indices ++ [i] })

/-- The final loop state of `remove_duplicates_cosine_90`.  The similarity
matrix (produced by the external embedding model) and the threshold are
parameters. -/
def reduceRun (features : List Feature) (sim : Nat → Nat → ℚ) (threshold : ℚ) :
    ReduceState :=
  outerLoop features sim threshold features.length
    (List.range features.length) ⟨[], [], []⟩

/-- `remove_duplicates_cosine_90` returns `[features[i] for i in unique_indices]`. -/
def remove_duplicates_cosine_90 (features : List Feature) (sim : Nat → Nat → ℚ)
    (threshold : ℚ) : List Feature :=
  (reduceRun features sim threshold).unique_indices.map
    (fun i => features.getD i default)

/-- `removed_count = len(features) - len(unique_indices)` as printed by
`remove_duplicates_cosine_90`. -/
def removed_count_90 (features : List Feature) (sim : Nat → Nat → ℚ)
    (threshold : ℚ) : Nat :=
  features.length - (reduceRun features sim threshold).unique_indices.length

/-- One row of the results table built by `analyze_bdd_steps_with_nli`. -/
structure ResultRow where
  step1 : String
  step2 : String
  similarity : ℚ
  nli_label : String
  confidence : ℚ
  decision : String
deriving DecidableEq

/-- The per-pair body of the comparison loop in `analyze_bdd_steps_with_nli`:
the NLI model is consulted only above the 0.6 gate (below it the label is
`NEUTRAL` with confidence 1.0), and the decision is computed from the
similarity score and the label.  The NLI model is the external `classify`
parameter, taking the `s1 + " </s> " + s2` input string. -/
def pairResult (classify : String → String × ℚ) (s1 s2 : String) (sim : ℚ) :
    ResultRow :=
  let lc := if mkRat 6 10 < sim then classify (s1 ++ " </s> " ++ s2)
            else ("NEUTRAL", (1 : ℚ))
  { step1 := s1, step2 := s2, similarity := sim,
    nli_label := lc.1, confidence := lc.2,
    decision :=
      if mkRat 8 10 < sim then
        if lc.1 = "ENTAILMENT" then "✅ Likely Duplicate"
        else if lc.1 = "CONTRADICTION" then "❌ Contradictory"
        else "⚠️ Similar but Unclear"
      else "❌ Not Similar" }

/-- Python `feature.get(key)` for the three step keys. -/
def fieldGet (f : Feature) (key : String) : Option String :=
  if key = "given" then f.given
  else if key = "when" then f.when_
  else if key = "then" then f.then_
  else none

/-- The step-extraction loop at the top of `analyze_bdd_steps_with_nli`:
for each feature, for each key, append `f"{key.capitalize()}: {text}"`
when `text` is truthy (present and non-empty). -/
def extract_bdd_steps (bdd_features : List Feature) : List String :=
  bdd_features.foldl (fun acc f =>
    ["given", "when", "then"].foldl (fun acc2 key =>
      match fieldGet f key with
      | none => acc2
      | some t => if t = "" then acc2 else acc2 ++ [key.capitalize ++ ": " ++ t])
      acc) []

/-- Contract-shaped view of the units contributed by one record: one unit
per present, non-empty field, in Given/When/Then order. -/
def stepUnit (role : String) : Option String → List String
  | none => []
  | some t => if t = "" then [] else [role ++ ": " ++ t]

/-- Units of one scenario record in Given/When/Then order. -/
def scenarioUnits (f : Feature) : List String :=
  stepUnit "Given" f.given ++ stepUnit "When" f.when_ ++ stepUnit "Then" f.then_

/-- Contract-shaped extraction: record order, then role order within a record. -/
def extractUnits (features : List Feature) : List String :=
  features.flatMap scenarioUnits

/-- Outcome of one judgment-service call in `clean_duplicates_with_llm`:
`fail` is an exception (transport error or a JSON parse error inside the
`try`), `empty` is an empty response body, `ok kept removed` is a parsed
response after the `result.get("features", [])` / `result.get("removed", [])`
defaulting. -/
inductive LLMResponse where
  | fail
  | empty
  | ok (kept : List Feature) (removed : List Feature)
deriving DecidableEq

/-- The `{"features": [...]}` dictionary shape consumed and produced by
`clean_duplicates_with_llm`. -/
structure BddData where
  features : List Feature
deriving DecidableEq

/-- Fuel-indexed batching; fuel `l.length` is always enough when the batch
size is positive (Python's `range(0, n, batch_size)` raises for step 0, so
batch size 0 never reaches this code). -/
def chunkListAux : Nat → Nat → List Feature → List (List Feature)
  | _, _, [] => []
  | 0, _, _ :: _ => []
  | fuel + 1, bs, x :: xs =>
      (x :: xs).take bs :: chunkListAux fuel bs ((x :: xs).drop bs)

/-- The contiguous batches `features[i:i+batch_size]` of the batch loop. -/
def chunkList (bs : Nat) (l : List Feature) : List (List Feature) :=
  chunkListAux l.length bs l

/-- The scenarios a batch contributes to `all_unique_features`: on `fail`
or `empty` the whole batch is kept unmodified, otherwise the parsed kept
list. -/
def keptOf (r : LLMResponse) (batch : List Feature) : List Feature :=
  match r with
  | .fail => batch
  | .empty => batch
  | .ok kept _ => kept

/-- The contribution of a batch to `removed_count`. -/
def remCount (r : LLMResponse) : Nat :=
  match r with
  | .fail => 0
  | .empty => 0
  | .ok _ removed => removed.length

/-- The batch loop of `clean_duplicates_with_llm`, accumulating
`(all_unique_features, removed_count)` over the numbered batches. -/
def cleanFold (judge : Nat → List Feature → LLMResponse)
    (chunks : List (Nat × List Feature)) (acc : List Feature × Nat) :
    List Feature × Nat :=
  chunks.foldl (fun a p =>
    match judge p.1 p.2 with
    | .fail => (a.1 ++ p.2, a.2)
    | .empty => (a.1 ++ p.2, a.2)
    | .ok kept removed => (a.1 ++ kept, a.2 + removed.length)) acc

/-- `clean_duplicates_with_llm`: batches the features, judges each batch
(the judgment service is the external `judge` parameter, indexed by batch
number), and returns `{"features": all_unique_features}`. -/
def clean_duplicates_with_llm (judge : Nat → List Feature → LLMResponse)
    (bdd_json_data : BddData) (batch_size : Nat) : BddData :=
  ⟨(cleanFold judge (chunkList batch_size bdd_json_data.features).enum ([], 0)).1⟩

/-- The `removed_count` counter printed by `clean_duplicates_with_llm`. -/
def llm_removed_count (judge : Nat → List Feature → LLMResponse)
    (bdd_json_data : BddData) (batch_size : Nat) : Nat :=
  (cleanFold judge (chunkList batch_size bdd_json_data.features).enum ([], 0)).2

/-- JSON values, enough to render both strategies' return values as
`json.dump` would. -/
inductive Json where
  | null
  | str (s : String)
  | arr (elems : List Json)
  | obj (fields : List (String × Json))

/-- Optional field rendering: an absent field is simply missing from the
object. -/
def jsonField (key : String) : Option String → List (String × Json)
  | none => []
  | some s => [(key, Json.str s)]

/-- A scenario record as a JSON object. -/
def featureJson (f : Feature) : Json :=
  Json.obj (jsonField "given" f.given ++ jsonField "when" f.when_ ++
    jsonField "then" f.then_)

/-- The JSON shape of `remove_duplicates_cosine_90`'s return value: a bare
array of scenario records. -/
def cosine90OutputJson (features : List Feature) (sim : Nat → Nat → ℚ)
    (threshold : ℚ) : Json :=
  Json.arr ((remove_duplicates_cosine_90 features sim threshold).map featureJson)

/-- The JSON shape of `clean_duplicates_with_llm`'s return value: an object
with a `features` key holding the array of kept records. -/
def llmOutputJson (judge : Nat → List Feature → LLMResponse)
    (bdd_json_data : BddData) (batch_size : Nat) : Json :=
  Json.obj [("features",
    Json.arr ((clean_duplicates_with_llm judge bdd_json_data batch_size).features.map
      featureJson))]

/-! Basic lemmas about the loop-state helpers. -/

lemma mem_seenInsert {x j : Nat} {s : List Nat} :
    x ∈ seenInsert j s ↔ x = j ∨ x ∈ s := by
  unfold seenInsert
  split
  · next h => constructor
              · exact fun hx => Or.inr hx
              · rintro (rfl | hx) <;> assumption
  · simp [List.mem_append, or_comm]

lemma nodup_seenInsert {j : Nat} {s : List Nat} (h : s.Nodup) :
    (seenInsert j s).Nodup := by
  unfold seenInsert
  split
  · exact h
  · next hj => simpa [List.nodup_append, h] using hj

lemma mem_rangeFrom {x a b : Nat} : x ∈ rangeFrom a b ↔ a ≤ x ∧ x < b := by
  unfold rangeFrom
  simp only [List.mem_map, List.mem_range]
  constructor
  · rintro ⟨k, hk, rfl⟩; omega
  · rintro ⟨h1, h2⟩; exact ⟨x - a, by omega, by omega⟩

lemma rangeFrom_nil {a b : Nat} (h : b ≤ a) : rangeFrom a b = [] := by
  unfold rangeFrom
  have : b - a = 0 := by omega
  simp [this]

lemma rangeFrom_cons {a b : Nat} (h : a < b) :
    rangeFrom a b = a :: rangeFrom (a + 1) b := by
  unfold rangeFrom
  have hba : b - a = (b - (a + 1)) + 1 := by omega
  rw [hba, List.range_succ_eq_map, List.map_cons, List.map_map]
  refine congrArg₂ _ (by omega) (List.map_congr_left fun x _ => ?_)
  simp [Function.comp]
  omega

lemma rangeFrom_zero (n : Nat) : rangeFrom 0 n = List.range n := by
  unfold rangeFrom
  simp

/-! Lemmas for the inner loop of the cosine-90 reducer. -/

lemma innerLoop_unique (features : List Feature) (sim : Nat → Nat → ℚ)
    (threshold : ℚ) (i : Nat) :
    ∀ (js : List Nat) (st : ReduceState),
      (innerLoop features sim threshold i js st).unique_indices =
        st.unique_indices := by
  intro js
  induction js with
  | nil => intro st; rfl
  | cons j js ih =>
      intro st
      rw [innerLoop, ih]
      split <;> rfl

lemma innerLoop_duplicates (features : List Feature) (sim : Nat → Nat → ℚ)
    (threshold : ℚ) (i : Nat) :
    ∀ (js : List Nat) (st : ReduceState),
      (innerLoop features sim threshold i js st).duplicates =
        st.duplicates ++
          (js.filter (fun j => dupCond features sim threshold i j)).map
            (fun j => (i, j, sim i j)) := by
  intro js
  induction js with
  | nil => intro st; simp [innerLoop]
  | cons j js ih =>
      intro st
      rw [innerLoop]
      by_cases h : dupCond features sim threshold i j = true
      · rw [if_pos h, ih]
        simp [List.filter_cons, h]
      · rw [if_neg h, ih]
        simp [List.filter_cons, h]

lemma innerLoop_seen_mem (features : List Feature) (sim : Nat → Nat → ℚ)
    (threshold : ℚ) (i : Nat) :
    ∀ (js : List Nat) (st : ReduceState) (x : Nat),
      x ∈ (innerLoop features sim threshold i js st).seen ↔
        x ∈ st.seen ∨ (x ∈ js ∧ dupCond features sim threshold i x = true) := by
  intro js
  induction js with
  | nil => intro st x; simp [innerLoop]
  | cons j js ih =>
      intro st x
      rw [innerLoop]
      by_cases h : dupCond features sim threshold i j = true
      · rw [if_pos h, ih]
        show x ∈ seenInsert j st.seen ∨ _ ↔ _
        rw [mem_seenInsert]
        simp only [List.mem_cons]
        constructor
        · rintro ((rfl | hx) | ⟨hxs, hc⟩)
          · exact Or.inr ⟨Or.inl rfl, h⟩
          · exact Or.inl hx
          · exact Or.inr ⟨Or.inr hxs, hc⟩
        · rintro (hx | ⟨(rfl | hxs), hc⟩)
          · exact Or.inl (Or.inr hx)
          · exact Or.inl (Or.inl rfl)
          · exact Or.inr ⟨hxs, hc⟩
      · rw [if_neg h, ih]
        simp only [List.mem_cons]
        constructor
        · rintro (hx | ⟨hxs, hc⟩)
          · exact Or.inl hx
          · exact Or.inr ⟨Or.inr hxs, hc⟩
        · rintro (hx | ⟨(rfl | hxs), hc⟩)
          · exact Or.inl hx
          · exact absurd hc (by simp [h])
          · exact Or.inr ⟨hxs, hc⟩

lemma innerLoop_seen_nodup (features : List Feature) (sim : Nat → Nat → ℚ)
    (threshold : ℚ) (i : Nat) :
    ∀ (js : List Nat) (st : ReduceState), st.seen.Nodup →
      (innerLoop features sim threshold i js st).seen.Nodup := by
  intro js
  induction js with
  | nil => intro st h; exact h
  | cons j js ih =>
      intro st h
      rw [innerLoop]
      split
      · exact ih _ (nodup_seenInsert h)
      · exact ih _ h

lemma rangeFrom_nodup (a b : Nat) : (rangeFrom a b).Nodup :=
  (List.nodup_range _).map fun x y h => by omega

/-- Invariant of the outer loop of `remove_duplicates_cosine_90`, holding
whenever all anchors below `k` have been processed: every index below `n`
is kept, seen, or still pending; kept and seen are disjoint and duplicate
free; kept indices are strictly increasing; every duplicates record passed
the threshold-and-no-contrast guard, stores the similarity score, has a
seen victim and a kept anchor; every seen index has at least one reason
record; and no (anchor, victim) pair has two reason records. -/
structure Inv (features : List Feature) (sim : Nat → Nat → ℚ) (threshold : ℚ)
    (n k : Nat) (st : ReduceState) : Prop where
  cover : ∀ x, x < n → x ∈ st.unique_indices ∨ x ∈ st.seen ∨ k ≤ x
  uniq_mem : ∀ x ∈ st.unique_indices, x < k ∧ x < n
  seen_mem : ∀ x ∈ st.seen, 0 < x ∧ x < n
  disj : ∀ x ∈ st.unique_indices, x ∉ st.seen
  seen_nd : st.seen.Nodup
  uniq_sorted : List.Pairwise (· < ·) st.unique_indices
  dup_props : ∀ e ∈ st.duplicates,
    dupCond features sim threshold e.1 e.2.1 = true ∧
    e.2.2 = sim e.1 e.2.1 ∧ e.2.1 ∈ st.seen ∧ e.1 ∈ st.unique_indices
  seen_reason : ∀ x ∈ st.seen, ∃ a s, (a, x, s) ∈ st.duplicates
  pairs_nd : (st.duplicates.map fun e => (e.1, e.2.1)).Nodup

lemma inv_done {features : List Feature} {sim : Nat → Nat → ℚ} {threshold : ℚ}
    {n k : Nat} {st : ReduceState} (hkm : n ≤ k)
    (h : Inv features sim threshold n k st) :
    Inv features sim threshold n n st := by
  refine ⟨?_, ?_, h.seen_mem, h.disj, h.seen_nd, h.uniq_sorted, h.dup_props,
    h.seen_reason, h.pairs_nd⟩
  · intro x hx
    rcases h.cover x hx with h1 | h2 | h3
    · exact Or.inl h1
    · exact Or.inr (Or.inl h2)
    · omega
  · intro x hx
    exact ⟨(h.uniq_mem x hx).2, (h.uniq_mem x hx).2⟩

lemma inv_step (features : List Feature) (sim : Nat → Nat → ℚ) (threshold : ℚ)
    {n k : Nat} {st : ReduceState} (hk : k < n) (hs : k ∉ st.seen)
    (h : Inv features sim threshold n k st) :
    Inv features sim threshold n (k + 1)
      (let st2 := innerLoop features sim threshold k (rangeFrom (k + 1) n) st
       { st2 with unique_indices := st2.unique_indices ++ [k] }) := by
  have hju := innerLoop_unique features sim threshold k (rangeFrom (k + 1) n) st
  have hjse := innerLoop_seen_mem features sim threshold k (rangeFrom (k + 1) n) st
  have hjd := innerLoop_duplicates features sim threshold k (rangeFrom (k + 1) n) st
  dsimp only
  refine ⟨?_, ?_, ?_, ?_, ?_, ?_, ?_, ?_, ?_⟩
  · intro x hx
    rcases h.cover x hx with h1 | h2 | h3
    · exact Or.inl (List.mem_append_left _ (hju ▸ h1))
    · exact Or.inr (Or.inl ((hjse x).mpr (Or.inl h2)))
    · rcases Nat.lt_or_ge x (k + 1) with h4 | h4
      · have : x = k := by omega
        subst this
        exact Or.inl (List.mem_append_right _ (List.mem_singleton.mpr rfl))
      · exact Or.inr (Or.inr h4)
  · intro x hx
    rw [hju] at hx
    rcases List.mem_append.mp hx with h1 | h1
    · have := h.uniq_mem x h1
      exact ⟨by omega, this.2⟩
    · have : x = k := List.mem_singleton.mp h1
      subst this
      exact ⟨by omega, hk⟩
  · intro x hx
    rcases (hjse x).mp hx with h1 | ⟨h1, _⟩
    · exact h.seen_mem x h1
    · have := mem_rangeFrom.mp h1
      omega
  · intro x hx hxs
    rw [hju] at hx
    rcases (hjse x).mp hxs with h1 | ⟨h1, _⟩
    · rcases List.mem_append.mp hx with h2 | h2
      · exact h.disj x h2 h1
      · exact hs (List.mem_singleton.mp h2 ▸ h1)
    · have hge := mem_rangeFrom.mp h1
      rcases List.mem_append.mp hx with h2 | h2
      · have := h.uniq_mem x h2
        omega
      · have := List.mem_singleton.mp h2
        omega
  · exact innerLoop_seen_nodup features sim threshold k _ st h.seen_nd
  · rw [hju]
    refine List.pairwise_append.mpr ⟨h.uniq_sorted, List.pairwise_singleton _ _, ?_⟩
    intro x hx y hy
    rw [List.mem_singleton.mp hy]
    exact (h.uniq_mem x hx).1
  · intro e he
    rw [hjd] at he
    rcases List.mem_append.mp he with h1 | h1
    · obtain ⟨hc, hv, hsn, hu⟩ := h.dup_props e h1
      exact ⟨hc, hv, (hjse _).mpr (Or.inl hsn),
        List.mem_append_left _ (hju ▸ hu)⟩
    · obtain ⟨j, hj, rfl⟩ := List.mem_map.mp h1
      obtain ⟨hjm, hjc⟩ := List.mem_filter.mp hj
      exact ⟨hjc, rfl, (hjse _).mpr (Or.inr ⟨hjm, hjc⟩),
        List.mem_append_right _ (List.mem_singleton.mpr rfl)⟩
  · intro x hx
    rcases (hjse x).mp hx with h1 | ⟨h1, h2⟩
    · obtain ⟨a, s, hm⟩ := h.seen_reason x h1
      exact ⟨a, s, hjd ▸ List.mem_append_left _ hm⟩
    · exact ⟨k, sim k x, hjd ▸ List.mem_append_right _
        (List.mem_map.mpr ⟨x, List.mem_filter.mpr ⟨h1, h2⟩, rfl⟩)⟩
  · rw [hjd, List.map_append]
    refine List.Nodup.append h.pairs_nd ?_ ?_
    · rw [List.map_map]
      have : ((rangeFrom (k + 1) n).filter
          (fun j => dupCond features sim threshold k j)).Nodup :=
        (rangeFrom_nodup _ _).filter _
      refine this.map ?_
      intro a b hab
      simpa using congrArg Prod.snd hab
    · intro p hp1 hp2
      rw [List.map_map] at hp2
      obtain ⟨e, he, rfl⟩ := List.mem_map.mp hp1
      obtain ⟨j, _, hj⟩ := List.mem_map.mp hp2
      have hlt := (h.uniq_mem e.1 (h.dup_props e he).2.2.2).1
      have : e.1 = k := by
        have := congrArg Prod.fst hj
        simpa using this.symm
      omega

lemma outer_inv (features : List Feature) (sim : Nat → Nat → ℚ) (threshold : ℚ)
    {n : Nat} :
    ∀ (m k : Nat) (st : ReduceState), n ≤ k + m →
      Inv features sim threshold n k st →
      Inv features sim threshold n n
        (outerLoop features sim threshold n (rangeFrom k n) st) := by
  intro m
  induction m with
  | zero =>
      intro k st hkm h
      rw [rangeFrom_nil (by omega)]
      exact inv_done (by omega) h
  | succ m ih =>
      intro k st hkm h
      by_cases hkn : k < n
      · rw [rangeFrom_cons hkn, outerLoop]
        by_cases hs : k ∈ st.seen
        · rw [if_pos hs]
          refine ih (k + 1) st (by omega) ?_
          refine ⟨?_, ?_, h.seen_mem, h.disj, h.seen_nd, h.uniq_sorted,
            h.dup_props, h.seen_reason, h.pairs_nd⟩
          · intro x hx
            rcases h.cover x hx with h1 | h2 | h3
            · exact Or.inl h1
            · exact Or.inr (Or.inl h2)
            · rcases Nat.lt_or_ge x (k + 1) with h4 | h4
              · have : x = k := by omega
                subst this
                exact Or.inr (Or.inl hs)
              · exact Or.inr (Or.inr h4)
          · intro x hx
            have := h.uniq_mem x hx
            exact ⟨by omega, this.2⟩
        · rw [if_neg hs]
          exact ih (k + 1) _ (by omega) (inv_step features sim threshold hkn hs h)
      · rw [rangeFrom_nil (by omega)]
        exact inv_done (by omega) h

lemma reduceRun_inv (features : List Feature) (sim : Nat → Nat → ℚ)
    (threshold : ℚ) :
    Inv features sim threshold features.length features.length
      (reduceRun features sim threshold) := by
  have h0 : Inv features sim threshold features.length 0 ⟨[], [], []⟩ := by
    refine ⟨?_, ?_, ?_, ?_, ?_, ?_, ?_, ?_, ?_⟩ <;> simp
  have := outer_inv features sim threshold features.length 0 ⟨[], [], []⟩
    (by omega) h0
  rw [rangeFrom_zero] at this
  exact this

lemma uniq_nodup (features : List Feature) (sim : Nat → Nat → ℚ) (threshold : ℚ) :
    (reduceRun features sim threshold).unique_indices.Nodup :=
  (reduceRun_inv features sim threshold).uniq_sorted.imp Nat.ne_of_lt

lemma partition_perm (features : List Feature) (sim : Nat → Nat → ℚ)
    (threshold : ℚ) :
    ((reduceRun features sim threshold).unique_indices ++
      (reduceRun features sim threshold).seen).Perm
      (List.range features.length) := by
  have h := reduceRun_inv features sim threshold
  have hnd : ((reduceRun features sim threshold).unique_indices ++
      (reduceRun features sim threshold).seen).Nodup :=
    (uniq_nodup features sim threshold).append h.seen_nd
      (fun x hx hs => h.disj x hx hs)
  refine (List.perm_ext_iff_of_nodup hnd (List.nodup_range _)).mpr fun x => ?_
  rw [List.mem_append, List.mem_range]
  constructor
  · rintro (hx | hx)
    · exact (h.uniq_mem x hx).2
    · exact (h.seen_mem x hx).2
  · intro hx
    rcases h.cover x hx with h1 | h2 | h3
    · exact Or.inl h1
    · exact Or.inr h2
    · omega

/-- Concrete fixtures used by witnesses and counterexamples. -/
def cexFeature : Feature :=
  ⟨some "user logged in", some "clicks submit", some "form is saved"⟩

/-- A record with no text at all (its rendered when/then text is a single
space, free of every contrast keyword). -/
def blankFeature : Feature := ⟨none, none, none⟩

/-- Two identical scenario records. -/
def cexTwo : List Feature := [cexFeature, cexFeature]

/-- A similarity matrix that scores every pair 0.95. -/
def cexSimHigh : Nat → Nat → ℚ := fun _ _ => mkRat 95 100

/-- Three blank records. -/
def cexThree : List Feature := [blankFeature, blankFeature, blankFeature]

/-- Similarity matrix for `cexThree`: pairs (0,2) and (1,2) are above 0.9,
pair (0,1) is not. -/
def cexSimThree : Nat → Nat → ℚ := fun i j =>
  if (i == 0 && j == 2) || (i == 2 && j == 0) then mkRat 95 100
  else if (i == 1 && j == 2) || (i == 2 && j == 1) then mkRat 96 100
  else if i == j then 1 else 0

/-- Four blank records. -/
def cexFour : List Feature := [blankFeature, blankFeature, blankFeature, blankFeature]

/-- Similarity matrix for `cexFour`: pair (0,1) scores 0.85, pairs (1,2)
and (1,3) score 0.95, every other distinct pair scores 0. -/
def cexSimFour : Nat → Nat → ℚ := fun i j =>
  if (i == 0 && j == 1) || (i == 1 && j == 0) then mkRat 85 100
  else if (i == 1 && (j == 2 || j == 3)) || ((i == 2 || i == 3) && j == 1) then
    mkRat 95 100
  else if i == j then 1 else 0

/-- Claim C1: the cosine-90 reducer partitions the input indices — every
original index `0..n-1` lands in exactly one of `unique_indices` (kept) or
`seen` (removed): the two are disjoint, duplicate free, their union is
exactly `0..n-1`, and `len(kept) + len(removed) = len(input)`. -/
theorem C1_partition_invariant (features : List Feature) (sim : Nat → Nat → ℚ)
    (threshold : ℚ) :
    (∀ x, (x ∈ (reduceRun features sim threshold).unique_indices ∨
           x ∈ (reduceRun features sim threshold).seen) ↔ x < features.length) ∧
    (∀ x ∈ (reduceRun features sim threshold).unique_indices,
        x ∉ (reduceRun features sim threshold).seen) ∧
    (reduceRun features sim threshold).unique_indices.Nodup ∧
    (reduceRun features sim threshold).seen.Nodup ∧
    (remove_duplicates_cosine_90 features sim threshold).length +
        (reduceRun features sim threshold).seen.length = features.length := by
  have h := reduceRun_inv features sim threshold
  refine ⟨?_, h.disj, uniq_nodup features sim threshold, h.seen_nd, ?_⟩
  · intro x
    constructor
    · rintro (hx | hx)
      · exact (h.uniq_mem x hx).2
      · exact (h.seen_mem x hx).2
    · intro hx
      rcases h.cover x hx with h1 | h2 | h3
      · exact Or.inl h1
      · exact Or.inr h2
      · omega
  · have hp := (partition_perm features sim threshold).length_eq
    rw [List.length_append, List.length_range] at hp
    rw [remove_duplicates_cosine_90, List.length_map]
    exact hp

/-- Witness for C1 on two identical records at threshold 0.9: index 0 is
kept or removed, and being kept it is not removed. -/
theorem C1_partition_invariant_witness :
    (0 ∈ (reduceRun cexTwo cexSimHigh (mkRat 9 10)).unique_indices ∨
      0 ∈ (reduceRun cexTwo cexSimHigh (mkRat 9 10)).seen) ∧
    0 ∉ (reduceRun cexTwo cexSimHigh (mkRat 9 10)).seen :=
  ⟨((C1_partition_invariant cexTwo cexSimHigh (mkRat 9 10)).1 0).mpr (by decide),
   (C1_partition_invariant cexTwo cexSimHigh (mkRat 9 10)).2.1 0 (by decide)⟩

/-- Claim C2: the contrast veto — every reason record `(i, j, s)` in the
duplicates list of the cosine-90 reducer has contrast-free when/then texts
(`has_contrast` is false on them), and every removed index was removed by
at least one such contrast-free pair.  A pair with contrast never marks a
removal, regardless of its similarity. -/
theorem C2_contrast_veto (features : List Feature) (sim : Nat → Nat → ℚ)
    (threshold : ℚ) :
    (∀ e ∈ (reduceRun features sim threshold).duplicates,
        has_contrast (whenThen features e.1) (whenThen features e.2.1) = false) ∧
    (∀ x ∈ (reduceRun features sim threshold).seen,
        ∃ a s, (a, x, s) ∈ (reduceRun features sim threshold).duplicates ∧
          has_contrast (whenThen features a) (whenThen features x) = false) := by
  have h := reduceRun_inv features sim threshold
  have hcf : ∀ e ∈ (reduceRun features sim threshold).duplicates,
      has_contrast (whenThen features e.1) (whenThen features e.2.1) = false := by
    intro e he
    have hd := (h.dup_props e he).1
    have := ((Bool.and_eq_true _ _).mp hd).2
    simpa using this
  refine ⟨hcf, fun x hx => ?_⟩
  obtain ⟨a, s, hm⟩ := h.seen_reason x hx
  exact ⟨a, s, hm, hcf (a, x, s) hm⟩

/-- Witness for C2: on two identical records removed at similarity 0.95,
the single reason record (0, 1, 0.95) is contrast free. -/
theorem C2_contrast_veto_witness :
    has_contrast (whenThen cexTwo 0) (whenThen cexTwo 1) = false :=
  (C2_contrast_veto cexTwo cexSimHigh (mkRat 9 10)).1
    (0, 1, mkRat 95 100) (by decide)

/-- Counterexample to claim C4: with three records where pairs (0,2) and
(1,2) both clear the 0.9 threshold but (0,1) does not, the duplicates list
holds TWO reason records for index 2 — one from anchor 0 and one from
anchor 1 — because the inner loop never skips right-hand indices already
in `seen`.  The claim's "at most one entry (i, j, score) for each j" is
false. -/
theorem C4_counterexample :
    ((reduceRun cexThree cexSimThree (mkRat 9 10)).duplicates.map
        (fun e => (e.1, e.2.1))) = [(0, 2), (1, 2)] ∧
    ¬ ((reduceRun cexThree cexSimThree (mkRat 9 10)).duplicates.map
        (fun e => e.2.1)).Nodup := by
  refine ⟨by decide, by decide⟩

/-- Amended claim C4: once `j` is marked removed it never becomes an anchor
(it is excluded from the OUTER loop, so it is never kept and never removes
others), and the duplicates list has at most one reason record per ordered
(anchor, victim) pair — but a removed `j` is NOT excluded from further
right-hand comparisons, so it can collect one reason record from each kept
anchor that matches it.  Every reason record's anchor is kept and its
victim is removed. -/
theorem C4_per_pair_unique (features : List Feature) (sim : Nat → Nat → ℚ)
    (threshold : ℚ) :
    ((reduceRun features sim threshold).duplicates.map
        (fun e => (e.1, e.2.1))).Nodup ∧
    (∀ e ∈ (reduceRun features sim threshold).duplicates,
        e.1 ∈ (reduceRun features sim threshold).unique_indices ∧
        e.2.1 ∈ (reduceRun features sim threshold).seen ∧
        e.1 ∉ (reduceRun features sim threshold).seen) := by
  have h := reduceRun_inv features sim threshold
  refine ⟨h.pairs_nd, fun e he => ?_⟩
  obtain ⟨_, _, hv, hu⟩ := h.dup_props e he
  exact ⟨hu, hv, h.disj e.1 hu⟩

/-- Witness for the amended C4 at the three-record counterexample input:
the reason record (0, 2, 0.95) has kept anchor 0 and removed victim 2. -/
theorem C4_per_pair_unique_witness :
    0 ∈ (reduceRun cexThree cexSimThree (mkRat 9 10)).unique_indices ∧
    2 ∈ (reduceRun cexThree cexSimThree (mkRat 9 10)).seen ∧
    0 ∉ (reduceRun cexThree cexSimThree (mkRat 9 10)).seen :=
  (C4_per_pair_unique cexThree cexSimThree (mkRat 9 10)).2
    (0, 2, mkRat 95 100) (by decide)

/-- Counterexample to claim C5: with four records and similarities
sim(0,1) = 0.85, sim(1,2) = sim(1,3) = 0.95 (all others 0), the reducer
removes 1 scenario at threshold 0.8 but 2 scenarios at the HIGHER
threshold 0.9 — at 0.8 index 1 is removed early and never anchors, at 0.9
index 1 survives and removes 2 and 3.  Raising the threshold increased the
removed count. -/
theorem C5_counterexample :
    mkRat 8 10 ≤ mkRat 9 10 ∧
    removed_count_90 cexFour cexSimFour (mkRat 8 10) = 1 ∧
    removed_count_90 cexFour cexSimFour (mkRat 9 10) = 2 := by
  refine ⟨by decide, by decide, by decide⟩

/-- Amended claim C5: monotonicity holds pairwise, not globally — for a
fixed input and similarity matrix, raising the threshold only shrinks the
set of pairs eligible to be marked duplicate (any pair passing the guard
at the higher threshold passes it at the lower one); the greedy reducer's
total removed count is however not monotone in the threshold. -/
theorem C5_pairwise_threshold_monotone (features : List Feature)
    (sim : Nat → Nat → ℚ) (t1 t2 : ℚ) (h : t1 ≤ t2) (i j : Nat)
    (hd : dupCond features sim t2 i j = true) :
    dupCond features sim t1 i j = true := by
  simp only [dupCond, Bool.and_eq_true, decide_eq_true_eq] at hd ⊢
  exact ⟨lt_of_le_of_lt h hd.1, hd.2⟩

/-- Witness for the amended C5: the pair (1, 2) of the four-record
counterexample is eligible at threshold 0.9, hence also at 0.8. -/
theorem C5_pairwise_threshold_monotone_witness :
    dupCond cexFour cexSimFour (mkRat 8 10) 1 2 = true :=
  C5_pairwise_threshold_monotone cexFour cexSimFour (mkRat 8 10) (mkRat 9 10)
    (by decide) 1 2 (by decide)

/-- The decision policy of `analyze_bdd_steps_with_nli` as a pure function
of the similarity score and the relation label. -/
def decisionOf (sim : ℚ) (label : String) : String :=
  if mkRat 8 10 < sim then
    if label = "ENTAILMENT" then "✅ Likely Duplicate"
    else if label = "CONTRADICTION" then "❌ Contradictory"
    else "⚠️ Similar but Unclear"
  else "❌ Not Similar"

lemma pairResult_decision (classify : String → String × ℚ) (s1 s2 : String)
    (sim : ℚ) :
    (pairResult classify s1 s2 sim).decision =
      decisionOf sim (pairResult classify s1 s2 sim).nli_label := rfl

/-- Claim C3: the pairwise decision is a total pure function of the
similarity score and the relation label: at similarity ≤ 0.8 it is
"Not Similar" whatever the label; above 0.8 it is "Likely Duplicate" for
ENTAILMENT, "Contradictory" for CONTRADICTION, and "Similar but Unclear"
for NEUTRAL or any other label. -/
theorem C3_decision_policy (classify : String → String × ℚ) (s1 s2 : String)
    (sim : ℚ) :
    (pairResult classify s1 s2 sim).decision =
      decisionOf sim (pairResult classify s1 s2 sim).nli_label ∧
    (sim ≤ mkRat 8 10 →
      (pairResult classify s1 s2 sim).decision = "❌ Not Similar") ∧
    (mkRat 8 10 < sim →
      (pairResult classify s1 s2 sim).nli_label = "ENTAILMENT" →
      (pairResult classify s1 s2 sim).decision = "✅ Likely Duplicate") ∧
    (mkRat 8 10 < sim →
      (pairResult classify s1 s2 sim).nli_label = "CONTRADICTION" →
      (pairResult classify s1 s2 sim).decision = "❌ Contradictory") ∧
    (mkRat 8 10 < sim →
      (pairResult classify s1 s2 sim).nli_label ≠ "ENTAILMENT" →
      (pairResult classify s1 s2 sim).nli_label ≠ "CONTRADICTION" →
      (pairResult classify s1 s2 sim).decision = "⚠️ Similar but Unclear") := by
  refine ⟨pairResult_decision classify s1 s2 sim, ?_, ?_, ?_, ?_⟩
  · intro h
    rw [pairResult_decision, decisionOf, if_neg (not_lt.mpr h)]
  · intro h hl
    rw [pairResult_decision, decisionOf, if_pos h, hl]
    simp
  · intro h hl
    rw [pairResult_decision, decisionOf, if_pos h, hl]
    simp
  · intro h hl1 hl2
    rw [pairResult_decision, decisionOf, if_pos h, if_neg hl1, if_neg hl2]

/-- Witness for C3: at similarity 0.9 with a classifier answering
ENTAILMENT, the decision is "Likely Duplicate". -/
theorem C3_decision_policy_witness :
    (pairResult (fun _ => ("ENTAILMENT", 1)) "Given: a" "Given: b"
      (mkRat 9 10)).decision = "✅ Likely Duplicate" :=
  (C3_decision_policy (fun _ => ("ENTAILMENT", 1)) "Given: a" "Given: b"
    (mkRat 9 10)).2.2.1 (by decide) (by decide)

/-- Claim C7: the relation gate — at similarity ≤ 0.6 the classifier is
never consulted (the row is the same whatever classifier is supplied) and
the label defaults to NEUTRAL with confidence exactly 1; above 0.6 the
label and confidence are exactly the classifier's output on
`s1 + " </s> " + s2`. -/
theorem C7_relation_gate (c1 c2 : String → String × ℚ) (s1 s2 : String)
    (sim : ℚ) :
    (sim ≤ mkRat 6 10 →
      pairResult c1 s1 s2 sim = pairResult c2 s1 s2 sim ∧
      (pairResult c1 s1 s2 sim).nli_label = "NEUTRAL" ∧
      (pairResult c1 s1 s2 sim).confidence = 1) ∧
    (mkRat 6 10 < sim →
      (pairResult c1 s1 s2 sim).nli_label = (c1 (s1 ++ " </s> " ++ s2)).1 ∧
      (pairResult c1 s1 s2 sim).confidence = (c1 (s1 ++ " </s> " ++ s2)).2) := by
  constructor
  · intro h
    refine ⟨?_, ?_, ?_⟩ <;> simp [pairResult, not_lt.mpr h]
  · intro h
    constructor <;> simp [pairResult, h]

/-- Witness for C7: at similarity 0.5 two disagreeing classifiers yield the
identical row, labelled NEUTRAL. -/
theorem C7_relation_gate_witness :
    pairResult (fun _ => ("ENTAILMENT", mkRat 1 2)) "a" "b" (mkRat 5 10) =
      pairResult (fun _ => ("CONTRADICTION", 1)) "a" "b" (mkRat 5 10) ∧
    (pairResult (fun _ => ("ENTAILMENT", mkRat 1 2)) "a" "b"
      (mkRat 5 10)).nli_label = "NEUTRAL" ∧
    (pairResult (fun _ => ("ENTAILMENT", mkRat 1 2)) "a" "b"
      (mkRat 5 10)).confidence = 1 :=
  (C7_relation_gate (fun _ => ("ENTAILMENT", mkRat 1 2))
    (fun _ => ("CONTRADICTION", 1)) "a" "b" (mkRat 5 10)).1 (by decide)

lemma cleanFold_char (judge : Nat → List Feature → LLMResponse) :
    ∀ (chunks : List (Nat × List Feature)) (acc : List Feature × Nat),
      cleanFold judge chunks acc =
        (acc.1 ++ chunks.flatMap (fun p => keptOf (judge p.1 p.2) p.2),
         acc.2 + (chunks.map (fun p => remCount (judge p.1 p.2))).sum) := by
  intro chunks
  induction chunks with
  | nil => intro acc; simp [cleanFold]
  | cons p ps ih =>
      intro acc
      rw [cleanFold, List.foldl_cons]
      show cleanFold judge ps _ = _
      rw [ih]
      rcases hj : judge p.1 p.2 with _ | _ | ⟨kept, removed⟩ <;>
        simp [keptOf, remCount, hj, List.append_assoc, Nat.add_assoc]

/-- A judgment service that always raises. -/
def judgeFail : Nat → List Feature → LLMResponse := fun _ _ => LLMResponse.fail

/-- A judgment service that always succeeds keeping everything. -/
def judgeKeepAll : Nat → List Feature → LLMResponse :=
  fun _ batch => LLMResponse.ok batch []

/-- Counterexample to the flagged-batch part of claim C6: on a one-record
input whose only batch fails, the returned value is literally identical to
the return of a fully successful all-keep judgment — the result dictionary
is `{"features": [...]}` with no "unprocessed"/flagged-batch marker of any
kind, the failure being only printed to the console. -/
theorem C6_counterexample :
    clean_duplicates_with_llm judgeFail ⟨[cexFeature]⟩ 50 =
      clean_duplicates_with_llm judgeKeepAll ⟨[cexFeature]⟩ 50 ∧
    clean_duplicates_with_llm judgeFail ⟨[cexFeature]⟩ 50 = ⟨[cexFeature]⟩ ∧
    llm_removed_count judgeFail ⟨[cexFeature]⟩ 50 = 0 := by
  refine ⟨by decide, by decide, by decide⟩

/-- Amended claim C6: `clean_duplicates_with_llm` is fail-open per batch —
its kept output is the in-order concatenation of each batch's
contribution, a batch whose judgment call fails (raises) or returns an
empty response contributes all of its scenarios unmodified and adds zero
to `removed_count`; the failure is only reported as a printed warning, the
returned result carries no flagged-batch marker. -/
theorem C6_fail_open (judge : Nat → List Feature → LLMResponse)
    (bdd_json_data : BddData) (batch_size : Nat) :
    (clean_duplicates_with_llm judge bdd_json_data batch_size).features =
      ((chunkList batch_size bdd_json_data.features).enum).flatMap
        (fun p => keptOf (judge p.1 p.2) p.2) ∧
    llm_removed_count judge bdd_json_data batch_size =
      (((chunkList batch_size bdd_json_data.features).enum).map
        (fun p => remCount (judge p.1 p.2))).sum ∧
    (∀ k b, judge k b = LLMResponse.fail ∨ judge k b = LLMResponse.empty →
      keptOf (judge k b) b = b ∧ remCount (judge k b) = 0) := by
  refine ⟨?_, ?_, ?_⟩
  · rw [clean_duplicates_with_llm, cleanFold_char]
    simp
  · rw [llm_removed_count, cleanFold_char]
    simp
  · rintro k b (h | h) <;> rw [h] <;> exact ⟨rfl, rfl⟩

/-- Witness for the amended C6: a failing judgment on the batch
`[cexFeature]` contributes the batch unmodified and zero removals. -/
theorem C6_fail_open_witness :
    keptOf (judgeFail 0 [cexFeature]) [cexFeature] = [cexFeature] ∧
    remCount (judgeFail 0 [cexFeature]) = 0 :=
  (C6_fail_open judgeFail ⟨[cexFeature]⟩ 50).2.2 0 [cexFeature] (Or.inl rfl)

lemma cap_given : "given".capitalize = "Given" := by decide

lemma cap_when : "when".capitalize = "When" := by decide

lemma cap_then : "then".capitalize = "Then" := by decide

lemma inner_key_fold (f : Feature) (acc : List String) :
    ["given", "when", "then"].foldl (fun acc2 key =>
      match fieldGet f key with
      | none => acc2
      | some t => if t = "" then acc2 else acc2 ++ [key.capitalize ++ ": " ++ t])
      acc = acc ++ scenarioUnits f := by
  rcases f with ⟨g, w, t⟩
  simp only [List.foldl_cons, List.foldl_nil, fieldGet, scenarioUnits, stepUnit,
    cap_given, cap_when, cap_then]
  rcases g with _ | g <;> rcases w with _ | w <;> rcases t with _ | t <;>
    simp <;> split_ifs <;> simp

lemma extract_fold (features : List Feature) :
    ∀ acc : List String,
      features.foldl (fun acc f =>
        ["given", "when", "then"].foldl (fun acc2 key =>
          match fieldGet f key with
          | none => acc2
          | some t => if t = "" then acc2
                      else acc2 ++ [key.capitalize ++ ": " ++ t]) acc) acc =
        acc ++ extractUnits features := by
  induction features with
  | nil => intro acc; simp [extractUnits]
  | cons f fs ih =>
      intro acc
      rw [List.foldl_cons, inner_key_fold, ih]
      simp [extractUnits, List.append_assoc]

/-- Counterexample to claim C8: a whitespace-only field is NOT skipped —
Python's truthiness test `if text:` keeps the one-space string, so the
record whose only field is `when = " "` contributes the unit "When:  "
instead of the empty contribution the claim requires. -/
theorem C8_counterexample :
    extract_bdd_steps [⟨none, some " ", none⟩] = ["When:  "] ∧
    (" ".data.all fun c => c == ' ') = true := by
  refine ⟨by decide, by decide⟩

/-- Amended claim C8: the step extractor produces the ordered sequence of
step units with exactly one unit per field that is present and non-empty
(whitespace-only fields are kept, not skipped); the order is deterministic
— records in input order and Given, When, Then within each record — as the
equality with the per-record concatenation `extractUnits` shows. -/
theorem C8_step_extraction (features : List Feature) :
    extract_bdd_steps features = extractUnits features := by
  rw [extract_bdd_steps, extract_fold, List.nil_append]

/-- Discriminator: is a JSON value an array? -/
def Json.isArr : Json → Bool
  | .arr _ => true
  | _ => false

/-- Counterexample to claim C9: on the same one-record input, the cosine-90
strategy returns a bare JSON array of records while the LLM strategy
returns a JSON object wrapping that array under a `features` key — the two
results do not have the same structure. -/
theorem C9_counterexample :
    (cosine90OutputJson [cexFeature] (fun _ _ => 0) (mkRat 9 10)).isArr = true ∧
    (llmOutputJson judgeKeepAll ⟨[cexFeature]⟩ 50).isArr = false ∧
    cosine90OutputJson [cexFeature] (fun _ _ => 0) (mkRat 9 10) ≠
      llmOutputJson judgeKeepAll ⟨[cexFeature]⟩ 50 := by
  have h1 : (cosine90OutputJson [cexFeature] (fun _ _ => 0)
      (mkRat 9 10)).isArr = true := by decide
  have h2 : (llmOutputJson judgeKeepAll ⟨[cexFeature]⟩ 50).isArr = false := by
    decide
  refine ⟨h1, h2, fun h => ?_⟩
  rw [h, h2] at h1
  exact Bool.noConfusion h1

/-- Amended claim C9: both strategies consume the same scenario-record
shape and each output reduces to an array of records of that same shape —
but the shapes differ by a wrapper: `remove_duplicates_cosine_90` returns
the bare array while `clean_duplicates_with_llm` returns an object whose
`features` key holds the array, so the strategies are interchangeable only
through the evident wrap/unwrap adapter. -/
theorem C9_strategy_shapes (features : List Feature) (sim : Nat → Nat → ℚ)
    (threshold : ℚ) (judge : Nat → List Feature → LLMResponse)
    (batch_size : Nat) :
    ∃ ks ls : List Feature,
      cosine90OutputJson features sim threshold = Json.arr (ks.map featureJson) ∧
      llmOutputJson judge ⟨features⟩ batch_size =
        Json.obj [("features", Json.arr (ls.map featureJson))] :=
  ⟨remove_duplicates_cosine_90 features sim threshold,
   (clean_duplicates_with_llm judge ⟨features⟩ batch_size).features, rfl, rfl⟩

lemma pairwise_shift {idx : List Nat} (hp : List.Pairwise (· < ·) idx)
    (h1 : ∀ j ∈ idx, 1 ≤ j) :
    List.Pairwise (· < ·) (idx.map fun j => j - 1) := by
  refine List.pairwise_map.mpr ?_
  refine List.Pairwise.imp_of_mem ?_ hp
  intro a b ha _ hab
  have := h1 a ha
  omega

lemma shift_getD {α : Type} (d a : α) (t : List α) (idx : List Nat)
    (h1 : ∀ j ∈ idx, 1 ≤ j) :
    idx.map (fun j => (a :: t).getD j d) =
      (idx.map fun j => j - 1).map (fun j => t.getD j d) := by
  rw [List.map_map]
  refine List.map_congr_left fun j hj => ?_
  have hj1 := h1 j hj
  obtain ⟨j', rfl⟩ : ∃ j', j = j' + 1 := ⟨j - 1, by omega⟩
  simp

lemma mapGetD_sublist {α : Type} (d : α) :
    ∀ (l : List α) (idx : List Nat), List.Pairwise (· < ·) idx →
      (∀ i ∈ idx, i < l.length) →
      List.Sublist (idx.map fun i => l.getD i d) l := by
  intro l
  induction l with
  | nil =>
      intro idx hp hb
      cases idx with
      | nil => simp
      | cons i is =>
          have := hb i (List.mem_cons_self i is)
          simp at this
  | cons a t ih =>
      intro idx hp hb
      cases idx with
      | nil => simp
      | cons i is =>
          cases i with
          | zero =>
              have h1 : ∀ j ∈ is, 1 ≤ j := fun j hj => by
                have := (List.pairwise_cons.mp hp).1 j hj
                omega
              rw [List.map_cons, show (a :: t).getD 0 d = a from rfl,
                shift_getD d a t is h1]
              refine List.Sublist.cons₂ a (ih _ ?_ ?_)
              · exact pairwise_shift (List.pairwise_cons.mp hp).2 h1
              · intro j hj
                obtain ⟨j0, hj0, rfl⟩ := List.mem_map.mp hj
                have hbj := hb j0 (List.mem_cons_of_mem _ hj0)
                have h1j := h1 j0 hj0
                rw [List.length_cons] at hbj
                omega
          | succ i0 =>
              have h1 : ∀ j ∈ (i0 + 1) :: is, 1 ≤ j := by
                intro j hj
                rcases List.mem_cons.mp hj with rfl | hj'
                · omega
                · have := (List.pairwise_cons.mp hp).1 j hj'
                  omega
              rw [shift_getD d a t _ h1]
              refine List.Sublist.cons a (ih _ ?_ ?_)
              · exact pairwise_shift hp h1
              · intro j hj
                obtain ⟨j0, hj0, rfl⟩ := List.mem_map.mp hj
                have hbj := hb j0 hj0
                have h1j := h1 j0 hj0
                rw [List.length_cons] at hbj
                omega

/-- Implicit claim C10: the kept output of the cosine-90 reducer is an
order-and-content-preserving subsequence of the input — the very input
records, unmodified, in strictly increasing original-index order — and for
every non-empty input the first record (index 0) is always kept.  (The
embedding is pure, so the input list itself is never mutated.) -/
theorem C10_kept_subsequence (features : List Feature) (sim : Nat → Nat → ℚ)
    (threshold : ℚ) :
    List.Sublist (remove_duplicates_cosine_90 features sim threshold) features ∧
    List.Pairwise (· < ·) (reduceRun features sim threshold).unique_indices ∧
    (0 < features.length →
      features.getD 0 default ∈
        remove_duplicates_cosine_90 features sim threshold) := by
  have h := reduceRun_inv features sim threshold
  refine ⟨?_, h.uniq_sorted, ?_⟩
  · rw [remove_duplicates_cosine_90]
    exact mapGetD_sublist default features _ h.uniq_sorted
      (fun i hi => (h.uniq_mem i hi).2)
  · intro hn
    have h0 : 0 ∈ (reduceRun features sim threshold).unique_indices := by
      rcases h.cover 0 hn with h1 | h2 | h3
      · exact h1
      · exact absurd (h.seen_mem 0 h2).1 (by omega)
      · omega
    exact List.mem_map.mpr ⟨0, h0, rfl⟩

/-- Witness for C10 on two identical records: the first record is in the
kept output. -/
theorem C10_kept_subsequence_witness :
    cexTwo.getD 0 default ∈
      remove_duplicates_cosine_90 cexTwo cexSimHigh (mkRat 9 10) :=
  (C10_kept_subsequence cexTwo cexSimHigh (mkRat 9 10)).2.2 (by decide)

end PrdBdd
